import Mathlib

/-!
Verification development for the command-line front end of rmlint
(src/cmdline.c).  The definitions below are a shallow embedding of the C
functions; machine integers are modelled as Nat/Int, C strings as
List Char, glib booleans as Bool, `long double` numerals as exact
integers (the embedding restricts `strtold` to optionally-signed decimal
integer literals), and error-message strings as enumerated codes.
-/

/-! ## Character classification (ctype.h under the C locale) -/

/-- Model of C `isdigit`: the characters '0'..'9' (codes 48..57). -/
def isDigitCh (c : Char) : Bool :=
  decide (48 ≤ c.toNat ∧ c.toNat ≤ 57)

/-- Model of C `isalpha` in the C locale: 'a'..'z' (97..122) or 'A'..'Z' (65..90). -/
def isAlphaCh (c : Char) : Bool :=
  decide ((97 ≤ c.toNat ∧ c.toNat ≤ 122) ∨ (65 ≤ c.toNat ∧ c.toNat ≤ 90))

/-- Model of C `isspace`: space (32) and the control characters 9..13. -/
def isSpaceCh (c : Char) : Bool :=
  decide (c.toNat = 32 ∨ (9 ≤ c.toNat ∧ c.toNat ≤ 13))

/-- Lowercase a single ASCII character (as `strcasecmp` does per character). -/
def lowerCh (c : Char) : Char :=
  if 65 ≤ c.toNat ∧ c.toNat ≤ 90 then Char.ofNat (c.toNat + 32) else c

/-- Lowercase an ASCII character list. -/
def lowerList (cs : List Char) : List Char :=
  cs.map lowerCh

/-! ## Decimal number parsing (model of `strtold` on integer literals) -/

/-- Split a character list into its maximal leading run of digits and the rest. -/
def takeDigits : List Char → List Char × List Char
  | [] => ([], [])
  | c :: rest =>
    if isDigitCh c then
      let p := takeDigits rest
      (c :: p.1, p.2)
    else ([], c :: rest)

/-- Numeric value of a list of decimal digit characters. -/
def digitsVal (ds : List Char) : Nat :=
  ds.foldl (fun a c => 10 * a + (c.toNat - 48)) 0

/-- Helper shared by the branches of `strtoldInt`: parse an unsigned digit run,
failing when no digit is present. -/
def mkNum (neg : Bool) (cs : List Char) : Option (Int × List Char) :=
  let p := takeDigits cs
  if p.1 = [] then none
  else some (if neg then -(digitsVal p.1 : Int) else (digitsVal p.1 : Int), p.2)

/-- Model of `strtold(size_spec, &format)` restricted to optionally-signed
decimal integer literals: skips leading whitespace, consumes one optional
sign and a digit run, and returns the value together with the unconsumed
tail.  `none` models the no-conversion case (`format == size_spec`).
Fractional, exponent, hexadecimal and inf/nan literals are outside this
embedding; the claim theorems quantify only over inputs where this model
agrees with `strtold`. -/
def strtoldInt (cs : List Char) : Option (Int × List Char) :=
  match cs.dropWhile isSpaceCh with
  | [] => none
  | c :: rest =>
    if c = '-' then mkNum true rest
    else if c = '+' then mkNum false rest
    else mkNum false (c :: rest)

/-- Model of `g_strstrip`: remove leading and trailing whitespace. -/
def gStrstrip (cs : List Char) : List Char :=
  ((cs.dropWhile isSpaceCh).reverse.dropWhile isSpaceCh).reverse

/-! ## The size-suffix table and rm_cmd_size_string_to_bytes -/

/-- One row of the suffix table: struct FormatSpec from src/cmdline.c. -/
structure FormatSpec where
  id : String
  base : Nat
  exponent : Nat
  deriving DecidableEq

/-- SIZE_FORMAT_TABLE from src/cmdline.c, in the source's (sorted) order. -/
def SIZE_FORMAT_TABLE : List FormatSpec :=
  [⟨"b", 512, 1⟩, ⟨"c", 1, 1⟩, ⟨"e", 1000, 6⟩, ⟨"eb", 1024, 6⟩,
   ⟨"g", 1000, 3⟩, ⟨"gb", 1024, 3⟩, ⟨"k", 1000, 1⟩, ⟨"kb", 1024, 1⟩,
   ⟨"m", 1000, 2⟩, ⟨"mb", 1024, 2⟩, ⟨"p", 1000, 5⟩, ⟨"pb", 1024, 5⟩,
   ⟨"t", 1000, 4⟩, ⟨"tb", 1024, 4⟩, ⟨"w", 2, 1⟩]

/-- Error messages of the size parser, modelled as enumerated codes. -/
inductive SizeErr where
  | emptyInput
  | notANumber
  | negativeSize
  | badSuffix
  | maxSmallerMin
  deriving DecidableEq

/-- Model of rm_cmd_size_string_to_bytes.  The C looks the (whitespace
stripped) suffix up with a case-insensitive `bsearch` over the sorted
table; since every table id is lowercase this equals an exact first-match
search for the lowercased suffix.  A `none` input models a NULL pointer.
The numeric result is the exact mathematical value: the C computes
`decimal * pow(base, exponent)` in long double and converts it to the
64-bit RmOff with `/* No overflow check */`, so (every table power and
every integer below 2^64 being exactly representable) the model is
faithful precisely for results below 2^64; theorems about successful
parses therefore bound the result by G_MAXULONG. -/
def rm_cmd_size_string_to_bytes (size_spec : Option (List Char)) : Nat × Option SizeErr :=
  match size_spec with
  | none => (0, some SizeErr.emptyInput)
  | some cs =>
    match strtoldInt cs with
    | none => (0, some SizeErr.notANumber)
    | some (v, rest) =>
      if v < 0 then (0, some SizeErr.negativeSize)
      else if rest = [] then (v.toNat, none)
      else
        let fmt := lowerList (gStrstrip rest)
        match SIZE_FORMAT_TABLE.find? (fun f => f.id.data == fmt) with
        | some f => (v.toNat * f.base ^ f.exponent, none)
        | none => (0, some SizeErr.badSuffix)

/-! ## rm_cmd_size_range_string_to_bytes -/

/-- First occurrence split: `some (a, b)` when the list is `a ++ sep :: b`
with `sep ∉ a`; `none` when `sep` does not occur. -/
def splitFirst (sep : Char) : List Char → Option (List Char × List Char)
  | [] => none
  | c :: rest =>
    if c = sep then some ([], rest)
    else
      match splitFirst sep rest with
      | none => none
      | some (a, b) => some (c :: a, b)

/-- Model of `g_strsplit(s, "-", 2)`: an empty string gives no tokens;
otherwise at most two tokens, split at the first '-'. -/
def gStrsplitDash2 (s : List Char) : List (List Char) :=
  if s = [] then []
  else
    match splitFirst '-' s with
    | none => [s]
    | some (a, b) => [a, b]

/-- G_MAXULONG on an LP64 platform (unsigned long is 64 bits). -/
def G_MAXULONG : Nat := 18446744073709551615

/-- Model of rm_cmd_size_range_string_to_bytes: returns (min, max, error);
the C's gboolean result is `error = none`. -/
def rm_cmd_size_range_string_to_bytes (range_spec : List Char) : Nat × Nat × Option SizeErr :=
  let split := gStrsplitDash2 range_spec
  let st1 : Nat × Option SizeErr :=
    match split[0]? with
    | some s0 => rm_cmd_size_string_to_bytes (some s0)
    | none => (0, none)
  let st2 : Nat × Option SizeErr :=
    match split[1]? with
    | some s1 => if st1.2 = none then rm_cmd_size_string_to_bytes (some s1) else (G_MAXULONG, st1.2)
    | none => (G_MAXULONG, st1.2)
  let err := if st2.1 < st1.1 then some SizeErr.maxSmallerMin else st2.2
  (st1.1, st2.1, err)

/-! ## Generic splitting (model of g_strsplit with unlimited tokens) -/

/-- Split at every occurrence of `sep` (no empty-string special case yet). -/
def splitOnChar (sep : Char) : List Char → List (List Char)
  | [] => [[]]
  | c :: rest =>
    if c = sep then [] :: splitOnChar sep rest
    else
      match splitOnChar sep rest with
      | [] => [[c]]
      | w :: ws => (c :: w) :: ws

/-- Model of `g_strsplit(s, sep, -1)`: the empty string yields no tokens. -/
def gStrsplitC (sep : Char) (s : List Char) : List (List Char) :=
  if s = [] then [] else splitOnChar sep s

/-- Join words with a single separator character (inverse of the split). -/
def joinWith (sep : Char) : List (List Char) → List Char
  | [] => []
  | [w] => w
  | w :: ws => w ++ sep :: joinWith sep ws

/-! ## The settings record (the fields of RmSettings the claims touch) -/

/-- The slice of RmSettings (session->settings) these claims depend on.
C doubles (the clamp factors) are modelled as exact rationals. -/
structure RmSettings where
  threads : Int
  depth : Int
  color : Bool
  ignore_hidden : Bool
  find_hardlinked_dupes : Bool
  merge_directories : Bool
  searchdup : Bool
  findbadids : Bool
  findbadlinks : Bool
  findemptydirs : Bool
  listemptyfiles : Bool
  nonstripped : Bool
  keep_all_tagged : Bool
  keep_all_untagged : Bool
  skip_start_factor : ℚ
  skip_end_factor : ℚ
  deriving DecidableEq

/-- A concrete settings value used to instantiate witnesses (field values
are arbitrary but fixed; the factors are at their documented defaults). -/
def testSettings : RmSettings :=
  { threads := 16, depth := 253, color := true, ignore_hidden := true,
    find_hardlinked_dupes := false, merge_directories := false,
    searchdup := true, findbadids := true, findbadlinks := true,
    findemptydirs := true, listemptyfiles := true, nonstripped := false,
    keep_all_tagged := false, keep_all_untagged := false,
    skip_start_factor := 0, skip_end_factor := 1 }

/-! ## Lint-type parsing (rm_cmd_parse_lint_types and helpers) -/

/-- The gboolean* slots the lint-type option table can point at. -/
inductive LintField where
  | badids
  | badlinks
  | emptydirs
  | emptyfiles
  | nonstripped
  | searchdup
  | mergedirs
  deriving DecidableEq

/-- Write through one option-table pointer (`*option->enable[i] = v`). -/
def setLintField (s : RmSettings) (f : LintField) (v : Bool) : RmSettings :=
  match f with
  | .badids => { s with findbadids := v }
  | .badlinks => { s with findbadlinks := v }
  | .emptydirs => { s with findemptydirs := v }
  | .emptyfiles => { s with listemptyfiles := v }
  | .nonstripped => { s with nonstripped := v }
  | .searchdup => { s with searchdup := v }
  | .mergedirs => { s with merge_directories := v }

/-- The enable list of option_table[0] (the "all" entry); the reset loop
`for (i = 0; all_opts->enable[i]; i++)` walks exactly this list. -/
def all_lint_fields : List LintField :=
  [.badids, .badlinks, .emptydirs, .emptyfiles, .nonstripped, .searchdup, .mergedirs]

/-- option_table from rm_cmd_parse_lint_types: names and enable slots per row. -/
def lint_option_table : List (List String × List LintField) :=
  [(["all"], all_lint_fields),
   (["minimal"], [.badids, .badlinks, .searchdup]),
   (["minimaldirs"], [.badids, .badlinks, .mergedirs]),
   (["defaults"], [.badids, .badlinks, .emptydirs, .emptyfiles, .searchdup]),
   (["none"], []),
   (["badids", "bi"], [.badids]),
   (["badlinks", "bl"], [.badlinks]),
   (["emptydirs", "ed"], [.emptydirs]),
   (["emptyfiles", "ef"], [.emptyfiles]),
   (["nonstripped", "ns"], [.nonstripped]),
   (["duplicates", "df", "dupes"], [.searchdup]),
   (["duplicatedirs", "dd", "dupedirs"], [.mergedirs])]

/-- Model of rm_cmd_find_lint_types_sep: skip one leading '+' or '-' and
then every alphabetic character; the result is the character found there,
with `Char.ofNat 0` playing the role of the terminating NUL. -/
def rm_cmd_find_lint_types_sep (lint_string : List Char) : Char :=
  let s1 :=
    match lint_string with
    | c :: rest => if c = '+' ∨ c = '-' then rest else lint_string
    | [] => lint_string
  match s1.dropWhile isAlphaCh with
  | [] => Char.ofNat 0
  | c :: _ => c

/-- The split step of rm_cmd_parse_lint_types (fall back to ',' when the
inferred separator is NUL, then g_strsplit). -/
def rm_cmd_lint_split (lint_string : List Char) : List (List Char) :=
  let sep0 := rm_cmd_find_lint_types_sep lint_string
  let sep := if sep0 = Char.ofNat 0 then ',' else sep0
  gStrsplitC sep lint_string

/-- One iteration of the loop over the separated lint-type strings. -/
def rm_cmd_apply_lint_type (s : RmSettings) (idx : Nat) (lint_type : List Char) : RmSettings :=
  let sign : Int :=
    match lint_type with
    | '+' :: _ => 1
    | '-' :: _ => -1
    | _ => 0
  if 0 < idx ∧ sign = 0 then s
  else
    let lt := if sign = 0 then lint_type else lint_type.tail
    match lint_option_table.find? (fun opt => opt.1.contains (String.mk lt)) with
    | none => s
    | some opt =>
      let s1 := if sign = 0 then all_lint_fields.foldl (fun s2 f => setLintField s2 f false) s else s
      opt.2.foldl (fun s2 f => setLintField s2 f (if sign = -1 then false else true)) s1

/-- The indexed loop over the split lint types. -/
def rm_cmd_apply_lint_types_list (s : RmSettings) (idx : Nat) : List (List Char) → RmSettings
  | [] => s
  | t :: rest => rm_cmd_apply_lint_types_list (rm_cmd_apply_lint_type s idx t) (idx + 1) rest

/-- The final coupling at the end of rm_cmd_parse_lint_types: when
merge_directories ended up set, hidden files are searched and hardlink
duplicates are kept. -/
def rm_cmd_apply_merge_coupling (s : RmSettings) : RmSettings :=
  if s.merge_directories then
    { s with ignore_hidden := false, find_hardlinked_dupes := true }
  else s

/-- Model of rm_cmd_parse_lint_types. -/
def rm_cmd_parse_lint_types (s : RmSettings) (lint_string : List Char) : RmSettings :=
  rm_cmd_apply_merge_coupling
    (rm_cmd_apply_lint_types_list s 0 (rm_cmd_lint_split lint_string))

/-- Model of rm_cmd_parse_merge_directories (the --merge-directories / -D
callback): enables merge mode and pulls in the two convenience options. -/
def rm_cmd_parse_merge_directories (s : RmSettings) : RmSettings :=
  let s1 := { s with merge_directories := true }
  let s2 := { s1 with find_hardlinked_dupes := true }
  { s2 with ignore_hidden := false }

/-! ## Boolean options, post-parse fixes and validation (rm_cmd_parse_args) -/

/-- The abstract command-line options this development needs; a
G_OPTION_ARG_NONE entry stores TRUE, one with G_OPTION_FLAG_REVERSE
(DISABLE) stores FALSE, and the int options store their argument. -/
inductive RmOption where
  | withColor
  | noWithColor
  | hidden
  | noHidden
  | hardlinked
  | noHardlinked
  | keepAllTagged
  | keepAllUntagged
  | setThreads (n : Int)
  | setDepth (n : Int)
  deriving DecidableEq

/-- Effect of one option on the settings, per the option_entries table. -/
def rm_cmd_apply_option (s : RmSettings) : RmOption → RmSettings
  | .withColor => { s with color := true }
  | .noWithColor => { s with color := false }
  | .hidden => { s with ignore_hidden := false }
  | .noHidden => { s with ignore_hidden := true }
  | .hardlinked => { s with find_hardlinked_dupes := true }
  | .noHardlinked => { s with find_hardlinked_dupes := false }
  | .keepAllTagged => { s with keep_all_tagged := true }
  | .keepAllUntagged => { s with keep_all_untagged := true }
  | .setThreads n => { s with threads := n }
  | .setDepth n => { s with depth := n }

/-- Whether an option is one of the two color flags. -/
def isColorOption : RmOption → Bool
  | .withColor => true
  | .noWithColor => true
  | _ => false

/-- Model of glib's CLAMP macro (the high bound is tested first). -/
def gClamp (x lo hi : Int) : Int :=
  if x > hi then hi else if x < lo then lo else x

/-- PATH_MAX on Linux. -/
def PATH_MAX : Nat := 4096

/-- The straight-line code after g_option_context_parse in
rm_cmd_parse_args: silently clamp threads and depth, then overwrite color
with the terminal check `isatty(stdout) && isatty(stderr)`. -/
def rm_cmd_post_parse (cfg : RmSettings) (tty_out tty_err : Bool) : RmSettings :=
  let cfg1 := { cfg with
    threads := gClamp cfg.threads 1 128,
    depth := gClamp cfg.depth 1 ((PATH_MAX : Int) / 2 + 1) }
  { cfg1 with color := tty_out && tty_err }

/-- Option processing followed by the post-parse fixes: the settings
that rm_cmd_parse_args leaves behind on a successful parse. -/
def rm_cmd_parse_args_settings (init : RmSettings) (opts : List RmOption) (tty_out tty_err : Bool) : RmSettings :=
  rm_cmd_post_parse (opts.foldl rm_cmd_apply_option init) tty_out tty_err

/-- Fatal configuration errors, modelled as enumerated codes. -/
inductive ConfigErr where
  | badSizeSpec
  | badTimeSpec
  | bothKeepAllTaggedUntagged
  | clampLowNotBelowTop
  | noValidPaths
  | badOutputs
  deriving DecidableEq

/-- The validation chain at the end of rm_cmd_parse_args (lines
1093-1111): contradictory keep flags, clamp factor order, path setup and
output setup, checked in the source's order. -/
def rm_cmd_validate (cfg : RmSettings) (paths_ok outputs_ok : Bool) : Option ConfigErr :=
  if cfg.keep_all_tagged = true ∧ cfg.keep_all_untagged = true then
    some ConfigErr.bothKeepAllTaggedUntagged
  else if cfg.skip_start_factor ≥ cfg.skip_end_factor then
    some ConfigErr.clampLowNotBelowTop
  else if paths_ok = false then some ConfigErr.noValidPaths
  else if outputs_ok = false then some ConfigErr.badOutputs
  else none

/-- Outcome of rm_cmd_parse_args as observed by the operating system:
every error path goes through rm_cmd_on_error, which calls
rm_cmd_die(session, EXIT_FAILURE), i.e. exit(1).  `cb_error` models a
GError set by an option callback during g_option_context_parse (for
example an unparseable --size or --newer-than argument). -/
def rm_cmd_parse_args_exit (cb_error : Option ConfigErr) (cfg : RmSettings)
    (paths_ok outputs_ok tty_out tty_err : Bool) : Except Nat RmSettings :=
  match cb_error with
  | some _ => Except.error 1
  | none =>
    let cfg2 := rm_cmd_post_parse cfg tty_out tty_err
    match rm_cmd_validate cfg2 paths_ok outputs_ok with
    | some _ => Except.error 1
    | none => Except.ok cfg2

/-! ## The orchestrator (rm_cmd_main) -/

/-- Modelled from the spec: the progress-state constants passed to
rm_fmt_set_state (their enum lives in formats.h, which is outside src/);
only the names are taken from the spec, the emission points are those of
rm_cmd_main in src/cmdline.c. -/
inductive RmState where
  | INIT
  | TRAVERSE
  | PREPROCESS
  | SHRED
  | MERGE
  | PRE_SHUTDOWN
  | SUMMARY
  deriving DecidableEq

/-- Runtime facts rm_cmd_main reacts to: whether the mount table could be
built, how many files traversal found, and whether any lint was found
(the latter is never consulted by the exit path). -/
structure RunEnv where
  mounts_ok : Bool
  total_files : Nat
  lint_found : Bool
  deriving DecidableEq

/-- What a run leaves behind: the process exit state, the progress-state
notifications sent to the formatter in order, and whether traversal and
shredding work ran at all. -/
structure RunResult where
  exit_state : Nat
  states : List RmState
  traversed : Bool
  shredded : Bool
  deriving DecidableEq

/-- Model of rm_cmd_main: INIT and TRAVERSE are notified first; a mount
table failure jumps to the failure label with EXIT_FAILURE; otherwise
traversal runs, PREPROCESS is notified only when at least one file was
found, shredding runs (without a notification from rm_cmd_main) when
duplicates or merged directories are searched, MERGE is notified only in
merge mode, and PRE_SHUTDOWN and SUMMARY close every surviving run with
EXIT_SUCCESS. -/
def rm_cmd_main_model (cfg : RmSettings) (env : RunEnv) : RunResult :=
  if env.mounts_ok then
    { exit_state := 0,
      states := [RmState.INIT, RmState.TRAVERSE]
        ++ (if 1 ≤ env.total_files then [RmState.PREPROCESS] else [])
        ++ (if cfg.merge_directories then [RmState.MERGE] else [])
        ++ [RmState.PRE_SHUTDOWN, RmState.SUMMARY],
      traversed := true,
      shredded := decide (1 ≤ env.total_files) && (cfg.searchdup || cfg.merge_directories) }
  else
    { exit_state := 1, states := [RmState.INIT, RmState.TRAVERSE],
      traversed := false, shredded := false }

/-- A whole run: argument parsing (which exits the process on a
configuration error, before rm_cmd_main is ever entered) followed by the
orchestrator. -/
def rm_cmd_run (cb_error : Option ConfigErr) (cfg : RmSettings)
    (paths_ok outputs_ok tty_out tty_err : Bool) (env : RunEnv) : RunResult :=
  match rm_cmd_parse_args_exit cb_error cfg paths_ok outputs_ok tty_out tty_err with
  | Except.error code => { exit_state := code, states := [], traversed := false, shredded := false }
  | Except.ok cfg2 => rm_cmd_main_model cfg2 env

/-! ## Path collection (rm_cmd_add_path, rm_cmd_set_paths) -/

/-- Model of rm_cmd_add_path.  `access` abstracts
`faccessat(AT_FDCWD, path, R_OK, AT_EACCESS) == 0`; an unreadable path is
only warned about and not stored.  The C writes at settings->paths[index]
with index equal to the number of paths stored so far, i.e. it appends;
realpath canonicalisation is not modelled. -/
def rm_cmd_add_path (access : List Char → Bool) (roots : List (List Char × Bool))
    (is_prefd : Bool) (path : List Char) : List (List Char × Bool) × Bool :=
  if access path then (roots ++ [(path, is_prefd)], true) else (roots, false)

/-- Model of rm_cmd_read_paths_from_stdin: add one path per stdin line,
counting the successful additions. -/
def rm_cmd_read_paths_from_stdin (access : List Char → Bool) (roots : List (List Char × Bool))
    (is_prefd : Bool) : List (List Char) → List (List Char × Bool) × Nat
  | [] => (roots, 0)
  | l :: rest =>
    let r1 := rm_cmd_add_path access roots is_prefd l
    let r2 := rm_cmd_read_paths_from_stdin access r1.1 is_prefd rest
    (r2.1, (if r1.2 then 1 else 0) + r2.2)

/-- Loop state of rm_cmd_set_paths: the stored roots (path and preferred
flag), the current preferred flag, the not_all_paths_read flag, and the
not-yet-consumed standard input lines. -/
structure PathsAcc where
  roots : List (List Char × Bool)
  is_prefd : Bool
  not_all : Bool
  stdin_left : List (List Char)
  deriving DecidableEq

/-- One iteration of the loop in rm_cmd_set_paths.  Note the source uses
prefix tests: `strncmp(dir_path, "-", 1)` and `strncmp(dir_path, "//", 2)`,
so any argument starting with '-' reads stdin (draining it) and any
argument starting with '//' toggles the preferred flag; an argument whose
additions number zero sets not_all_paths_read. -/
def rm_cmd_set_paths_step (access : List Char → Bool) (acc : PathsAcc) (arg : List Char) : PathsAcc :=
  if List.isPrefixOf ['-'] arg then
    let r := rm_cmd_read_paths_from_stdin access acc.roots acc.is_prefd acc.stdin_left
    { roots := r.1, is_prefd := acc.is_prefd,
      not_all := acc.not_all || (r.2 == 0), stdin_left := [] }
  else if List.isPrefixOf ['/', '/'] arg then
    { acc with is_prefd := !acc.is_prefd, not_all := true }
  else
    let r := rm_cmd_add_path access acc.roots acc.is_prefd arg
    { acc with roots := r.1, not_all := acc.not_all || !r.2 }

/-- Model of rm_cmd_set_paths: run the loop over the leftover arguments,
then fall back to the working directory when no path was set and nothing
failed, or fail when paths were given but none could be added. -/
def rm_cmd_set_paths (access : List Char → Bool) (stdin_lines : List (List Char))
    (iwd : List Char) (args : List (List Char)) : List (List Char × Bool) × Bool :=
  let acc := args.foldl (rm_cmd_set_paths_step access) ⟨[], false, false, stdin_lines⟩
  if acc.roots.isEmpty && !acc.not_all then
    ((rm_cmd_add_path access acc.roots acc.is_prefd iwd).1, true)
  else if acc.roots.isEmpty && acc.not_all then
    (acc.roots, false)
  else
    (acc.roots, true)

/-- Modelled from the amended claim's words, for comparison against
`rm_cmd_set_paths`: with no stdin argument present, an argument beginning
with "//" toggles the preferred flag for subsequent roots, and every
other argument becomes a root carrying the flag in effect (when it is
readable). -/
def set_paths_spec (access : List Char → Bool) : Bool → List (List Char) → List (List Char × Bool)
  | _, [] => []
  | pref, a :: rest =>
    if List.isPrefixOf ['/', '/'] a then set_paths_spec access (!pref) rest
    else if access a then (a, pref) :: set_paths_spec access pref rest
    else set_paths_spec access pref rest

/-- The order in which rm_cmd_main can possibly notify progress states
(SHRED never appears among its rm_fmt_set_state calls). -/
def rm_full_state_order : List RmState :=
  [RmState.INIT, RmState.TRAVERSE, RmState.PREPROCESS, RmState.MERGE,
   RmState.PRE_SHUTDOWN, RmState.SUMMARY]

/-- Decidable form of "the first character, if any, is not a digit":
used to state that a suffix does not extend the numeral before it. -/
def headNotDigit : List Char → Bool
  | [] => true
  | c :: _ => !isDigitCh c

/-! ## Helper lemmas -/

theorem isDigitCh_not_space {c : Char} (h : isDigitCh c = true) : isSpaceCh c = false := by
  simp [isDigitCh] at h
  simp [isSpaceCh]
  omega

theorem isDigitCh_ne_dash {c : Char} (h : isDigitCh c = true) : c ≠ '-' := by
  intro hc
  subst hc
  exact absurd h (by decide)

theorem isDigitCh_ne_plus {c : Char} (h : isDigitCh c = true) : c ≠ '+' := by
  intro hc
  subst hc
  exact absurd h (by decide)

theorem isAlphaCh_not_digit {c : Char} (h : isAlphaCh c = true) : isDigitCh c = false := by
  simp [isAlphaCh] at h
  simp [isDigitCh]
  omega

theorem isAlphaCh_not_space {c : Char} (h : isAlphaCh c = true) : isSpaceCh c = false := by
  simp [isAlphaCh] at h
  simp [isSpaceCh]
  omega

theorem dropWhile_all_false {p : Char → Bool} :
    ∀ {l : List Char}, (∀ c ∈ l, p c = false) → l.dropWhile p = l := by
  intro l
  induction l with
  | nil => intro _; rfl
  | cons c rest ih =>
    intro h
    have hc : p c = false := h c (by simp)
    have hrest := ih (fun d hd => h d (by simp [hd]))
    simp [List.dropWhile_cons, hc, hrest]

theorem gStrstrip_of_no_space {l : List Char} (h : ∀ c ∈ l, isSpaceCh c = false) :
    gStrstrip l = l := by
  unfold gStrstrip
  rw [dropWhile_all_false h, dropWhile_all_false (fun c hc => h c (List.mem_reverse.mp hc)),
    List.reverse_reverse]

theorem takeDigits_append {ds rest : List Char} (h1 : ∀ c ∈ ds, isDigitCh c = true)
    (h2 : ∀ c, rest.head? = some c → isDigitCh c = false) :
    takeDigits (ds ++ rest) = (ds, rest) := by
  induction ds with
  | nil =>
    simp only [List.nil_append]
    cases rest with
    | nil => rfl
    | cons c r => simp [takeDigits, h2 c rfl]
  | cons d ds ih =>
    have hd := h1 d (by simp)
    have hrec := ih (fun c hc => h1 c (by simp [hc]))
    simp only [List.cons_append, takeDigits, hd, if_true, List.append_eq, hrec]

theorem strtoldInt_digits {ds rest : List Char} (hne : ds ≠ [])
    (h1 : ∀ c ∈ ds, isDigitCh c = true)
    (h2 : ∀ c, rest.head? = some c → isDigitCh c = false) :
    strtoldInt (ds ++ rest) = some ((digitsVal ds : Int), rest) := by
  cases ds with
  | nil => exact absurd rfl hne
  | cons d ds =>
    have hd := h1 d (by simp)
    have hds : ∀ c ∈ ds, isDigitCh c = true := fun c hc => h1 c (by simp [hc])
    have hspace := isDigitCh_not_space hd
    have htake : takeDigits (d :: ds ++ rest) = (d :: ds, rest) := takeDigits_append h1 h2
    simp only [strtoldInt, List.cons_append, List.dropWhile_cons, hspace, Bool.false_eq_true,
      if_false, isDigitCh_ne_dash hd, isDigitCh_ne_plus hd, if_neg (isDigitCh_ne_dash hd),
      if_neg (isDigitCh_ne_plus hd), mkNum]
    rw [show d :: (ds ++ rest) = (d :: ds) ++ rest from rfl, htake]
    simp

theorem splitFirst_of_not_mem {sep : Char} :
    ∀ {l : List Char}, sep ∉ l → splitFirst sep l = none := by
  intro l
  induction l with
  | nil => intro _; rfl
  | cons c rest ih =>
    intro h
    have hc : ¬(c = sep) := fun hc => h (by simp [hc])
    simp only [splitFirst, if_neg hc, ih (fun hm => h (by simp [hm]))]

theorem splitOnChar_of_not_mem {sep : Char} :
    ∀ {l : List Char}, sep ∉ l → splitOnChar sep l = [l] := by
  intro l
  induction l with
  | nil => intro _; rfl
  | cons c rest ih =>
    intro h
    have hc : ¬(c = sep) := fun hc => h (by simp [hc])
    simp only [splitOnChar, if_neg hc, ih (fun hm => h (by simp [hm]))]

theorem splitOnChar_append_sep {sep : Char} :
    ∀ {l t : List Char}, sep ∉ l →
      splitOnChar sep (l ++ sep :: t) = l :: splitOnChar sep t := by
  intro l t
  induction l with
  | nil => intro _; simp [splitOnChar]
  | cons c rest ih =>
    intro h
    have hc : ¬(c = sep) := fun hc => h (by simp [hc])
    have hrec := ih (fun hm => h (by simp [hm]))
    simp only [List.cons_append, splitOnChar, if_neg hc, List.append_eq, hrec]

theorem splitOnChar_joinWith {sep : Char} :
    ∀ {ws : List (List Char)}, ws ≠ [] → (∀ w ∈ ws, sep ∉ w) →
      splitOnChar sep (joinWith sep ws) = ws := by
  intro ws
  induction ws with
  | nil => intro h _; exact absurd rfl h
  | cons w ws ih =>
    intro _ h
    cases ws with
    | nil => exact splitOnChar_of_not_mem (h w (by simp))
    | cons w2 ws2 =>
      have hrec := ih (by simp) (fun u hu => h u (List.mem_cons_of_mem w hu))
      simp only [joinWith, splitOnChar_append_sep (h w (by simp)), hrec]

theorem dropWhile_append_of_all {p : Char → Bool} :
    ∀ {l t : List Char}, (∀ c ∈ l, p c = true) →
      (l ++ t).dropWhile p = t.dropWhile p := by
  intro l t
  induction l with
  | nil => intro _; rfl
  | cons c rest ih =>
    intro h
    have hc := h c (by simp)
    simp only [List.cons_append, List.dropWhile_cons, hc, if_true]
    exact ih (fun d hd => h d (by simp [hd]))

theorem headNotDigit_spec {l : List Char} (h : headNotDigit l = true) :
    ∀ c, l.head? = some c → isDigitCh c = false := by
  intro c hc
  cases l with
  | nil => simp at hc
  | cons d rest =>
    simp at hc
    subst hc
    simpa [headNotDigit] using h

theorem rm_size_string_suffix_found {ds rest : List Char} {f : FormatSpec}
    (hne : ds ≠ []) (hd : ∀ c ∈ ds, isDigitCh c = true)
    (hh : headNotDigit rest = true) (hrne : rest ≠ [])
    (hfind : SIZE_FORMAT_TABLE.find? (fun g => g.id.data == lowerList (gStrstrip rest)) = some f) :
    rm_cmd_size_string_to_bytes (some (ds ++ rest)) = (digitsVal ds * f.base ^ f.exponent, none) := by
  have hs := strtoldInt_digits hne hd (headNotDigit_spec hh)
  have hv : ¬((digitsVal ds : Int) < 0) := by omega
  simp only [rm_cmd_size_string_to_bytes, hs, hv, if_false, if_neg hrne, hfind]
  simp

theorem rm_size_string_suffix_notfound {ds rest : List Char}
    (hne : ds ≠ []) (hd : ∀ c ∈ ds, isDigitCh c = true)
    (hh : headNotDigit rest = true) (hrne : rest ≠ [])
    (hfind : SIZE_FORMAT_TABLE.find? (fun g => g.id.data == lowerList (gStrstrip rest)) = none) :
    rm_cmd_size_string_to_bytes (some (ds ++ rest)) = (0, some SizeErr.badSuffix) := by
  have hs := strtoldInt_digits hne hd (headNotDigit_spec hh)
  have hv : ¬((digitsVal ds : Int) < 0) := by omega
  simp only [rm_cmd_size_string_to_bytes, hs, hv, if_false, if_neg hrne, hfind]

/-! ## Claim C4 -/

/-- Claim C4: a non-negative decimal number followed by a recognized
suffix multiplies the number by base^exponent per SIZE_FORMAT_TABLE
(b 512, c 1, k/kb 1000/1024, m/mb squared, g/gb cubed, t/tb fourth,
p/pb fifth, e/eb sixth powers, w 2); a negative number, a non-numeric
prefix, or an unrecognized suffix yields 0 with an error set.  The
hypotheses on the head characters delimit the inputs on which the
suffix does not extend the numeral itself (exponent or hex notation)
and on which `strtold` cannot parse an inf/nan or fractional literal;
the G_MAXULONG bound keeps the product inside the range where the C's
unchecked long double to RmOff conversion is defined and exact. -/
theorem rm_cmd_size_string_suffix_table :
    (∀ (ds : List Char) (f : FormatSpec), ds ≠ [] → (∀ c ∈ ds, isDigitCh c = true) →
      f ∈ SIZE_FORMAT_TABLE → digitsVal ds * f.base ^ f.exponent ≤ G_MAXULONG →
      rm_cmd_size_string_to_bytes (some (ds ++ f.id.data)) = (digitsVal ds * f.base ^ f.exponent, none))
    ∧ (∀ (ds rest : List Char), ds ≠ [] → (∀ c ∈ ds, isDigitCh c = true) →
      0 < digitsVal ds → headNotDigit rest = true →
      rm_cmd_size_string_to_bytes (some ('-' :: (ds ++ rest))) = (0, some SizeErr.negativeSize))
    ∧ (∀ (c : Char) (rest : List Char), isDigitCh c = false → isSpaceCh c = false →
      c ≠ '-' → c ≠ '+' → c ≠ '.' → c ≠ 'i' → c ≠ 'I' → c ≠ 'n' → c ≠ 'N' →
      rm_cmd_size_string_to_bytes (some (c :: rest)) = (0, some SizeErr.notANumber))
    ∧ (∀ (ds suf : List Char), ds ≠ [] → (∀ c ∈ ds, isDigitCh c = true) →
      suf ≠ [] → (∀ c ∈ suf, isAlphaCh c = true) →
      (∀ c, suf.head? = some c → c ≠ 'x' ∧ c ≠ 'X') →
      SIZE_FORMAT_TABLE.find? (fun f => f.id.data == lowerList suf) = none →
      rm_cmd_size_string_to_bytes (some (ds ++ suf)) = (0, some SizeErr.badSuffix)) := by
  refine ⟨?_, ?_, ?_, ?_⟩
  · intro ds f hne hd hf _
    fin_cases hf <;> exact rm_size_string_suffix_found hne hd (by decide) (by decide) (by decide)
  · intro ds rest hne hd hpos hh
    have hs := strtoldInt_digits hne hd (headNotDigit_spec hh)
    have hsp2 : isSpaceCh '-' = false := by decide
    have hdrop : ('-' :: (ds ++ rest)).dropWhile isSpaceCh = '-' :: (ds ++ rest) := by
      simp [List.dropWhile_cons, hsp2]
    have hneg : strtoldInt ('-' :: (ds ++ rest)) = some (-(digitsVal ds : Int), rest) := by
      simp only [strtoldInt, hdrop, if_pos rfl, mkNum]
      have htake := takeDigits_append hd (headNotDigit_spec hh)
      simp [htake, hne]
    have hv : (-(digitsVal ds : Int)) < 0 := by omega
    simp [rm_cmd_size_string_to_bytes, hneg, hv]
  · intro c rest hdig hsp hdash hplus _ _ _ _ _
    have hdrop : (c :: rest).dropWhile isSpaceCh = c :: rest := by
      simp [List.dropWhile_cons, hsp]
    have hnone : strtoldInt (c :: rest) = none := by
      simp only [strtoldInt, hdrop, if_neg hdash, if_neg hplus, mkNum, takeDigits, hdig]
      simp
    simp [rm_cmd_size_string_to_bytes, hnone]
  · intro ds suf hne hd hsne halpha _ hfind
    have hnospace : ∀ c ∈ suf, isSpaceCh c = false :=
      fun c hc => isAlphaCh_not_space (halpha c hc)
    have hstrip : gStrstrip suf = suf := gStrstrip_of_no_space hnospace
    have hh : headNotDigit suf = true := by
      cases suf with
      | nil => rfl
      | cons c r =>
        simp [headNotDigit, isAlphaCh_not_digit (halpha c (by simp))]
    exact rm_size_string_suffix_notfound hne hd hh hsne (by rw [hstrip]; exact hfind)

/-- Witness for claim C4 at the concrete input "5kb". -/
theorem rm_cmd_size_string_suffix_table_witness :
    rm_cmd_size_string_to_bytes (some (['5'] ++ ("kb").data)) = (digitsVal ['5'] * 1024 ^ 1, none) :=
  rm_cmd_size_string_suffix_table.1 ['5'] ⟨"kb", 1024, 1⟩ (by decide) (by decide) (by decide)
    (by decide)

/-! ## Claim C3 -/

/-- Counterexample to claim C3: for the separator-free input "5" the
source leaves *max at its G_MAXULONG initialisation, so min and max are
not both the parsed value. -/
theorem rm_cmd_size_range_single_value_counterexample :
    rm_cmd_size_range_string_to_bytes ['5'] = (5, G_MAXULONG, none) ∧ G_MAXULONG ≠ 5 := by
  decide

/-- Claim C3 as amended: a size-range string without '-' that parses as a
single value v succeeds with *min = v and *max = G_MAXULONG (the single
value acts as a lower bound only). -/
theorem rm_cmd_size_range_single_value_amended (s : List Char) (v : Nat)
    (h1 : ('-' : Char) ∉ s)
    (h2 : rm_cmd_size_string_to_bytes (some s) = (v, none))
    (h3 : v ≤ G_MAXULONG) :
    rm_cmd_size_range_string_to_bytes s = (v, G_MAXULONG, none) := by
  have hne : s ≠ [] := by
    intro h
    subst h
    simp [rm_cmd_size_string_to_bytes, strtoldInt] at h2
  have hsplit : gStrsplitDash2 s = [s] := by
    simp [gStrsplitDash2, hne, splitFirst_of_not_mem h1]
  simp [rm_cmd_size_range_string_to_bytes, hsplit, h2, Nat.not_lt.mpr h3]

/-- Witness for the amended claim C3 at the concrete input "7". -/
theorem rm_cmd_size_range_single_value_amended_witness :
    rm_cmd_size_range_string_to_bytes ['7'] = (7, G_MAXULONG, none) :=
  rm_cmd_size_range_single_value_amended ['7'] 7 (by decide) (by decide) (by decide)

/-! ## Claim C2 -/

/-- Claim C2: two command lines that differ only in their
--with-color / --no-with-color flags produce the same cfg->color after
rm_cmd_parse_args, and that value is isatty(stdout) AND isatty(stderr);
the unconditional overwrite at the end of parsing discards the flags. -/
theorem rm_cmd_color_flag_has_no_effect (init : RmSettings) (opts1 opts2 : List RmOption)
    (tty_out tty_err : Bool)
    (h : opts1.filter (fun o => !isColorOption o) = opts2.filter (fun o => !isColorOption o)) :
    (rm_cmd_parse_args_settings init opts1 tty_out tty_err).color
        = (rm_cmd_parse_args_settings init opts2 tty_out tty_err).color
    ∧ (rm_cmd_parse_args_settings init opts1 tty_out tty_err).color = (tty_out && tty_err) := by
  constructor <;> simp [rm_cmd_parse_args_settings, rm_cmd_post_parse]

/-- Witness for claim C2: --with-color versus --no-with-color on a TTY. -/
theorem rm_cmd_color_flag_has_no_effect_witness :
    (rm_cmd_parse_args_settings testSettings [RmOption.withColor] true true).color
        = (rm_cmd_parse_args_settings testSettings [RmOption.noWithColor] true true).color
    ∧ (rm_cmd_parse_args_settings testSettings [RmOption.withColor] true true).color = (true && true) :=
  rm_cmd_color_flag_has_no_effect testSettings [RmOption.withColor] [RmOption.noWithColor]
    true true (by decide)

/-! ## Claim C10 -/

/-- Claim C10: after the silent fixes in rm_cmd_parse_args the thread
count lies in [1, 128] and the traversal depth in [1, PATH_MAX/2 + 1],
whatever numeric values the user supplied. -/
theorem rm_cmd_numeric_input_clamped (cfg : RmSettings) (tty_out tty_err : Bool) :
    1 ≤ (rm_cmd_post_parse cfg tty_out tty_err).threads
    ∧ (rm_cmd_post_parse cfg tty_out tty_err).threads ≤ 128
    ∧ 1 ≤ (rm_cmd_post_parse cfg tty_out tty_err).depth
    ∧ (rm_cmd_post_parse cfg tty_out tty_err).depth ≤ (PATH_MAX : Int) / 2 + 1 := by
  simp only [rm_cmd_post_parse, gClamp, PATH_MAX]
  refine ⟨?_, ?_, ?_, ?_⟩ <;> (split_ifs <;> omega)

/-! ## Claim C9 -/

/-- Claim C9: whenever directory-merge mode ends up enabled, via the
--merge-directories callback or via a lint-type selector, ignore_hidden
is forced to false and find_hardlinked_dupes to true, regardless of
their previous values. -/
theorem rm_cmd_merge_directories_coupling :
    (∀ s : RmSettings,
      (rm_cmd_parse_merge_directories s).merge_directories = true
      ∧ (rm_cmd_parse_merge_directories s).find_hardlinked_dupes = true
      ∧ (rm_cmd_parse_merge_directories s).ignore_hidden = false)
    ∧ (∀ (s : RmSettings) (ls : List Char),
      (rm_cmd_parse_lint_types s ls).merge_directories = true →
      (rm_cmd_parse_lint_types s ls).ignore_hidden = false
      ∧ (rm_cmd_parse_lint_types s ls).find_hardlinked_dupes = true) := by
  constructor
  · intro s
    simp [rm_cmd_parse_merge_directories]
  · intro s ls
    unfold rm_cmd_parse_lint_types
    generalize rm_cmd_apply_lint_types_list s 0 (rm_cmd_lint_split ls) = s1
    by_cases h : s1.merge_directories = true <;>
      simp [rm_cmd_apply_merge_coupling, h]

/-- Witness for claim C9: the lint-type selector "duplicatedirs" enables
merge mode and drags the two settings along. -/
theorem rm_cmd_merge_directories_coupling_witness :
    (rm_cmd_parse_lint_types testSettings (("duplicatedirs").data)).ignore_hidden = false
    ∧ (rm_cmd_parse_lint_types testSettings (("duplicatedirs").data)).find_hardlinked_dupes = true :=
  rm_cmd_merge_directories_coupling.2 testSettings (("duplicatedirs").data) (by decide)

/-! ## Claim C6 -/

theorem rm_cmd_validate_some_of {cfg : RmSettings} {paths_ok outputs_ok : Bool}
    (h : (cfg.keep_all_tagged = true ∧ cfg.keep_all_untagged = true)
       ∨ cfg.skip_start_factor ≥ cfg.skip_end_factor
       ∨ paths_ok = false) :
    ∃ e, rm_cmd_validate cfg paths_ok outputs_ok = some e := by
  unfold rm_cmd_validate
  split_ifs with h1 h2 h3 h4
  · exact ⟨_, rfl⟩
  · exact ⟨_, rfl⟩
  · exact ⟨_, rfl⟩
  · exact ⟨_, rfl⟩
  · rcases h with h | h | h
    · exact absurd h h1
    · exact absurd h h2
    · exact absurd h h3

theorem rm_cmd_post_parse_preserves (cfg : RmSettings) (tty_out tty_err : Bool) :
    (rm_cmd_post_parse cfg tty_out tty_err).keep_all_tagged = cfg.keep_all_tagged
    ∧ (rm_cmd_post_parse cfg tty_out tty_err).keep_all_untagged = cfg.keep_all_untagged
    ∧ (rm_cmd_post_parse cfg tty_out tty_err).skip_start_factor = cfg.skip_start_factor
    ∧ (rm_cmd_post_parse cfg tty_out tty_err).skip_end_factor = cfg.skip_end_factor := by
  simp [rm_cmd_post_parse]

/-- Claim C6: a configuration error — an unparseable size or time spec
(a callback GError), --keep-all-tagged with --keep-all-untagged, a
clamp-low factor at or above the clamp-top factor, or no valid paths —
terminates the process with a nonzero exit status before any traversal
or shredding work and before any formatter notification; and a run whose
mount table builds returns exit state 0 from rm_cmd_main whether or not
lint was found. -/
theorem rm_cmd_config_errors_are_fatal :
    (∀ (cb : Option ConfigErr) (cfg : RmSettings) (paths_ok outputs_ok tty_out tty_err : Bool)
       (env : RunEnv),
      (cb ≠ none
        ∨ (cfg.keep_all_tagged = true ∧ cfg.keep_all_untagged = true)
        ∨ cfg.skip_start_factor ≥ cfg.skip_end_factor
        ∨ paths_ok = false) →
      (rm_cmd_run cb cfg paths_ok outputs_ok tty_out tty_err env).exit_state ≠ 0
      ∧ (rm_cmd_run cb cfg paths_ok outputs_ok tty_out tty_err env).traversed = false
      ∧ (rm_cmd_run cb cfg paths_ok outputs_ok tty_out tty_err env).shredded = false
      ∧ (rm_cmd_run cb cfg paths_ok outputs_ok tty_out tty_err env).states = [])
    ∧ (∀ (cfg : RmSettings) (env : RunEnv), env.mounts_ok = true →
      (rm_cmd_main_model cfg env).exit_state = 0) := by
  constructor
  · intro cb cfg paths_ok outputs_ok tty_out tty_err env h
    cases cb with
    | some e => simp [rm_cmd_run, rm_cmd_parse_args_exit]
    | none =>
      have h2 : (cfg.keep_all_tagged = true ∧ cfg.keep_all_untagged = true)
          ∨ cfg.skip_start_factor ≥ cfg.skip_end_factor ∨ paths_ok = false := by
        rcases h with h | h | h | h
        · exact absurd rfl h
        · exact Or.inl h
        · exact Or.inr (Or.inl h)
        · exact Or.inr (Or.inr h)
      have hpres := rm_cmd_post_parse_preserves cfg tty_out tty_err
      have h3 : (rm_cmd_post_parse cfg tty_out tty_err).keep_all_tagged = true
            ∧ (rm_cmd_post_parse cfg tty_out tty_err).keep_all_untagged = true
          ∨ (rm_cmd_post_parse cfg tty_out tty_err).skip_start_factor
              ≥ (rm_cmd_post_parse cfg tty_out tty_err).skip_end_factor
          ∨ paths_ok = false := by
        rw [hpres.1, hpres.2.1, hpres.2.2.1, hpres.2.2.2]
        exact h2
      obtain ⟨e, he⟩ := @rm_cmd_validate_some_of (rm_cmd_post_parse cfg tty_out tty_err) paths_ok outputs_ok h3
      simp [rm_cmd_run, rm_cmd_parse_args_exit, he]
  · intro cfg env hm
    simp [rm_cmd_main_model, hm]

/-- Witness for claim C6: a bad --size spec aborts the run before any
work; a clean run exits 0. -/
theorem rm_cmd_config_errors_are_fatal_witness :
    ((rm_cmd_run (some ConfigErr.badSizeSpec) testSettings true true true true ⟨true, 3, true⟩).exit_state ≠ 0
     ∧ (rm_cmd_run (some ConfigErr.badSizeSpec) testSettings true true true true ⟨true, 3, true⟩).traversed = false
     ∧ (rm_cmd_run (some ConfigErr.badSizeSpec) testSettings true true true true ⟨true, 3, true⟩).shredded = false
     ∧ (rm_cmd_run (some ConfigErr.badSizeSpec) testSettings true true true true ⟨true, 3, true⟩).states = [])
    ∧ (rm_cmd_main_model testSettings ⟨true, 3, true⟩).exit_state = 0 :=
  ⟨rm_cmd_config_errors_are_fatal.1 (some ConfigErr.badSizeSpec) testSettings true true true true
      ⟨true, 3, true⟩ (Or.inl (by simp)),
   rm_cmd_config_errors_are_fatal.2 testSettings ⟨true, 3, true⟩ rfl⟩

/-! ## Claim C1 -/

/-- Counterexample to claim C1: a run over an empty tree (mount table
fine, zero files, merge mode off) notifies only INIT, TRAVERSE,
PRE_SHUTDOWN and SUMMARY — not the full seven-state sequence; in
particular rm_cmd_main has no SHRED notification at all. -/
theorem rm_cmd_main_states_counterexample :
    (rm_cmd_main_model testSettings ⟨true, 0, false⟩).states
      ≠ [RmState.INIT, RmState.TRAVERSE, RmState.PREPROCESS, RmState.SHRED,
         RmState.MERGE, RmState.PRE_SHUTDOWN, RmState.SUMMARY]
    ∧ (rm_cmd_main_model testSettings ⟨true, 0, false⟩).states
      = [RmState.INIT, RmState.TRAVERSE, RmState.PRE_SHUTDOWN, RmState.SUMMARY] := by
  decide

/-- Claim C1 as amended: the notifications of every run form, in order, a
subsequence of INIT, TRAVERSE, PREPROCESS, MERGE, PRE_SHUTDOWN, SUMMARY;
INIT and TRAVERSE always come first, SHRED is never notified by
rm_cmd_main, PREPROCESS appears exactly when the mount table built and at
least one file was traversed, MERGE exactly when the mount table built
and merge mode is on, every run with a mount table ends with the two
notifications PRE_SHUTDOWN, SUMMARY, and a run whose mount table failed
notifies exactly INIT, TRAVERSE. -/
theorem rm_cmd_main_states_order (cfg : RmSettings) (env : RunEnv) :
    ((rm_cmd_main_model cfg env).states).Sublist rm_full_state_order
    ∧ ((rm_cmd_main_model cfg env).states).take 2 = [RmState.INIT, RmState.TRAVERSE]
    ∧ RmState.SHRED ∉ (rm_cmd_main_model cfg env).states
    ∧ (RmState.PREPROCESS ∈ (rm_cmd_main_model cfg env).states
        ↔ (env.mounts_ok = true ∧ 1 ≤ env.total_files))
    ∧ (RmState.MERGE ∈ (rm_cmd_main_model cfg env).states
        ↔ (env.mounts_ok = true ∧ cfg.merge_directories = true))
    ∧ (env.mounts_ok = true →
        List.IsSuffix [RmState.PRE_SHUTDOWN, RmState.SUMMARY] ((rm_cmd_main_model cfg env).states))
    ∧ (env.mounts_ok = false →
        (rm_cmd_main_model cfg env).states = [RmState.INIT, RmState.TRAVERSE]) := by
  have hsuffix : env.mounts_ok = true →
      List.IsSuffix [RmState.PRE_SHUTDOWN, RmState.SUMMARY] ((rm_cmd_main_model cfg env).states) := by
    intro hm
    unfold rm_cmd_main_model
    rw [if_pos hm]
    exact List.suffix_append _ _
  refine ⟨?_, ?_, ?_, ?_, ?_, hsuffix, ?_⟩ <;>
    by_cases hm : env.mounts_ok = true <;>
      by_cases ht : 1 ≤ env.total_files <;>
        by_cases hg : cfg.merge_directories = true <;>
          simp [rm_cmd_main_model, rm_full_state_order, hm, ht, hg]

/-- Witness for the amended claim C1 on a concrete run. -/
theorem rm_cmd_main_states_order_witness :
    List.IsSuffix [RmState.PRE_SHUTDOWN, RmState.SUMMARY]
      ((rm_cmd_main_model testSettings ⟨true, 2, false⟩).states)
    ∧ RmState.SHRED ∉ (rm_cmd_main_model testSettings ⟨true, 2, false⟩).states :=
  ⟨(rm_cmd_main_states_order testSettings ⟨true, 2, false⟩).2.2.2.2.2.1 rfl,
   (rm_cmd_main_states_order testSettings ⟨true, 2, false⟩).2.2.1⟩

/-! ## Claim C7 -/

theorem rm_cmd_set_paths_fold_keeps_not_all {access : List Char → Bool} :
    ∀ {args : List (List Char)} {acc : PathsAcc}, acc.not_all = true →
      (args.foldl (rm_cmd_set_paths_step access) acc).not_all = true := by
  intro args
  induction args with
  | nil => intro acc h; exact h
  | cons a rest ih =>
    intro acc h
    simp only [List.foldl_cons]
    apply ih
    unfold rm_cmd_set_paths_step
    split_ifs <;> simp [rm_cmd_add_path, h]

theorem rm_cmd_set_paths_fold_roots_grow {access : List Char → Bool} :
    ∀ {args : List (List Char)} {acc : PathsAcc},
      acc.roots.length ≤ (args.foldl (rm_cmd_set_paths_step access) acc).roots.length := by
  intro args
  induction args with
  | nil => intro acc; exact Nat.le_refl _
  | cons a rest ih =>
    intro acc
    simp only [List.foldl_cons]
    refine Nat.le_trans ?_ ih
    unfold rm_cmd_set_paths_step
    have hgrow : ∀ (roots : List (List Char × Bool)) (pref : Bool) (lines : List (List Char)),
        roots.length ≤ (rm_cmd_read_paths_from_stdin access roots pref lines).1.length := by
      intro roots pref lines
      induction lines generalizing roots with
      | nil => exact Nat.le_refl _
      | cons l ls ihl =>
        refine Nat.le_trans ?_ (ihl _)
        unfold rm_cmd_add_path
        split_ifs <;> simp
    split_ifs with h1 h2
    · exact hgrow _ _ _
    · simp
    · unfold rm_cmd_add_path
      split_ifs <;> simp

/-- Claim C7: an unreadable root is warned about and skipped while the
loop continues over the remaining arguments (the step only records the
failure in not_all_paths_read), and the fatal "No valid paths given"
outcome occurs only when no root at all could be added — and only when
arguments were actually given. -/
theorem rm_cmd_unreadable_path_skipped :
    (∀ (access : List Char → Bool) (roots : List (List Char × Bool)) (pref : Bool) (p : List Char),
      access p = false → rm_cmd_add_path access roots pref p = (roots, false))
    ∧ (∀ (access : List Char → Bool) (acc : PathsAcc) (p : List Char),
      access p = false → List.isPrefixOf ['-'] p = false → List.isPrefixOf ['/', '/'] p = false →
      rm_cmd_set_paths_step access acc p = { acc with not_all := true })
    ∧ (∀ (access : List Char → Bool) (stdin_lines : List (List Char)) (iwd : List Char)
         (args : List (List Char)),
      (rm_cmd_set_paths access stdin_lines iwd args).2 = false →
      (rm_cmd_set_paths access stdin_lines iwd args).1 = [] ∧ args ≠ []) := by
  refine ⟨?_, ?_, ?_⟩
  · intro access roots pref p h
    simp [rm_cmd_add_path, h]
  · intro access acc p h hdash hslash
    simp [rm_cmd_set_paths_step, hdash, hslash, rm_cmd_add_path, h]
  · intro access stdin_lines iwd args h
    constructor
    · simp only [rm_cmd_set_paths] at h ⊢
      split_ifs at h ⊢ with h1 h2
      all_goals try simp at h
      all_goals simp only [Bool.and_eq_true, List.isEmpty_iff] at h2
      all_goals simpa using h2.1
    · intro ha
      subst ha
      simp [rm_cmd_set_paths] at h

/-- Witness for claim C7 on concrete unreadable inputs. -/
theorem rm_cmd_unreadable_path_skipped_witness :
    rm_cmd_add_path (fun _ => false) [] false ['x'] = ([], false)
    ∧ rm_cmd_set_paths_step (fun _ => false) ⟨[], false, false, []⟩ ['x']
        = { roots := [], is_prefd := false, not_all := true, stdin_left := ([] : List (List Char)) }
    ∧ ((rm_cmd_set_paths (fun _ => false) [] ['c'] [['x']]).1 = [] ∧ [['x']] ≠ ([] : List (List Char))) :=
  ⟨rm_cmd_unreadable_path_skipped.1 (fun _ => false) [] false ['x'] rfl,
   rm_cmd_unreadable_path_skipped.2.1 (fun _ => false) ⟨[], false, false, []⟩ ['x'] rfl
     (by decide) (by decide),
   rm_cmd_unreadable_path_skipped.2.2 (fun _ => false) [] ['c'] [['x']] (by decide)⟩

/-! ## Claim C5 -/

theorem rm_cmd_read_stdin_roots {access : List Char → Bool} :
    ∀ (lines : List (List Char)) (roots : List (List Char × Bool)) (pref : Bool),
      (rm_cmd_read_paths_from_stdin access roots pref lines).1
        = roots ++ (lines.filter access).map (fun p => (p, pref)) := by
  intro lines
  induction lines with
  | nil => intro roots pref; simp [rm_cmd_read_paths_from_stdin]
  | cons l ls ih =>
    intro roots pref
    by_cases ha : access l
    · simp [rm_cmd_read_paths_from_stdin, rm_cmd_add_path, ha, ih]
    · simp [rm_cmd_read_paths_from_stdin, rm_cmd_add_path, ha, ih]

theorem rm_cmd_set_paths_fold_roots {access : List Char → Bool} :
    ∀ (args : List (List Char)) (acc : PathsAcc),
      (∀ a ∈ args, List.isPrefixOf ['-'] a = false) →
      (args.foldl (rm_cmd_set_paths_step access) acc).roots
        = acc.roots ++ set_paths_spec access acc.is_prefd args := by
  intro args
  induction args with
  | nil => intro acc _; simp [set_paths_spec]
  | cons a rest ih =>
    intro acc h
    have hdash := h a (by simp)
    have hrest : ∀ u ∈ rest, List.isPrefixOf ['-'] u = false := fun u hu => h u (by simp [hu])
    simp only [List.foldl_cons]
    by_cases hsl : List.isPrefixOf ['/', '/'] a = true
    · have hstep : rm_cmd_set_paths_step access acc a
          = { acc with is_prefd := !acc.is_prefd, not_all := true } := by
        simp [rm_cmd_set_paths_step, hdash, hsl]
      rw [hstep, ih _ hrest]
      simp [set_paths_spec, hsl]
    · by_cases ha : access a = true
      · have hstep : rm_cmd_set_paths_step access acc a
            = { acc with roots := acc.roots ++ [(a, acc.is_prefd)], not_all := acc.not_all || false } := by
          simp [rm_cmd_set_paths_step, hdash, hsl, rm_cmd_add_path, ha]
        rw [hstep, ih _ hrest]
        simp [set_paths_spec, hsl, ha]
      · have hstep : rm_cmd_set_paths_step access acc a
            = { acc with roots := acc.roots, not_all := acc.not_all || true } := by
          simp [rm_cmd_set_paths_step, hdash, hsl, rm_cmd_add_path, ha]
        rw [hstep, ih _ hrest]
        simp [set_paths_spec, hsl, ha]

theorem rm_cmd_set_paths_fold_empty_not_all {access : List Char → Bool} :
    ∀ (args : List (List Char)) (acc : PathsAcc), args ≠ [] →
      (∀ a ∈ args, List.isPrefixOf ['-'] a = false) →
      (args.foldl (rm_cmd_set_paths_step access) acc).roots.isEmpty = true →
      (args.foldl (rm_cmd_set_paths_step access) acc).not_all = true := by
  intro args
  cases args with
  | nil => intro acc h; exact absurd rfl h
  | cons a rest =>
    intro acc _ h hemp
    have hdash := h a (by simp)
    simp only [List.foldl_cons] at hemp ⊢
    by_cases hsl : List.isPrefixOf ['/', '/'] a = true
    · apply rm_cmd_set_paths_fold_keeps_not_all
      simp [rm_cmd_set_paths_step, hdash, hsl]
    · by_cases ha : access a = true
      · exfalso
        have hgrow := @rm_cmd_set_paths_fold_roots_grow access rest
          (rm_cmd_set_paths_step access acc a)
        have hlen : 1 ≤ (rm_cmd_set_paths_step access acc a).roots.length := by
          simp [rm_cmd_set_paths_step, hdash, hsl, rm_cmd_add_path, ha]
        rw [List.isEmpty_iff, ← List.length_eq_zero] at hemp
        omega
      · apply rm_cmd_set_paths_fold_keeps_not_all
        simp [rm_cmd_set_paths_step, hdash, hsl, rm_cmd_add_path, ha]

/-- Counterexample to claim C5: the source matches "//" and "-" by
prefix, so the argument "//x" — which the claim says is "every other
argument" and must become a root — instead toggles the preferred flag
and is never added: the following root "a" comes out tagged true and
"//x" appears nowhere. -/
theorem rm_cmd_set_paths_exact_separator_counterexample :
    rm_cmd_set_paths (fun _ => true) [] (("/cwd").data) [("//x").data, ['a']]
      = ([(['a'], true)], true)
    ∧ [(['a'], true)] ≠ [(("//x").data, false), (['a'], false)] := by
  decide

/-- Claim C5 as amended: an argument beginning with "//" toggles the
preferred flag applied to all subsequently added roots (initially
false), an argument beginning with '-' causes further roots to be read
from standard input one per line (each readable line becoming a root
with the flag currently in effect, draining stdin), and every other
argument is added as a root carrying the current flag when it is
readable. -/
theorem rm_cmd_set_paths_amended (access : List Char → Bool) (stdin_lines : List (List Char))
    (iwd : List Char) (args : List (List Char))
    (hd : ∀ a ∈ args, List.isPrefixOf ['-'] a = false) (hne : args ≠ []) :
    (rm_cmd_set_paths access stdin_lines iwd args).1 = set_paths_spec access false args
    ∧ (∀ (acc : PathsAcc) (d : List Char), List.isPrefixOf ['-'] d = true →
        (rm_cmd_set_paths_step access acc d).roots
          = acc.roots ++ (acc.stdin_left.filter access).map (fun p => (p, acc.is_prefd))) := by
  constructor
  · have hfold := @rm_cmd_set_paths_fold_roots access args
      ⟨[], false, false, stdin_lines⟩ hd
    simp only [rm_cmd_set_paths]
    split_ifs with h1 h2
    · exfalso
      simp only [Bool.and_eq_true, Bool.not_eq_true'] at h1
      have := @rm_cmd_set_paths_fold_empty_not_all access args
        ⟨[], false, false, stdin_lines⟩ hne hd h1.1
      rw [h1.2] at this
      exact absurd this (by simp)
    · simpa using hfold
    · simpa using hfold
  · intro acc d hdash
    simp [rm_cmd_set_paths_step, hdash, rm_cmd_read_stdin_roots]

/-- Witness for the amended claim C5 on concrete inputs. -/
theorem rm_cmd_set_paths_amended_witness :
    (rm_cmd_set_paths (fun _ => true) [] (("/cwd").data) [['a'], ("//").data, ['b']]).1
        = set_paths_spec (fun _ => true) false [['a'], ("//").data, ['b']]
    ∧ (∀ (acc : PathsAcc) (d : List Char), List.isPrefixOf ['-'] d = true →
        (rm_cmd_set_paths_step (fun _ => true) acc d).roots
          = acc.roots ++ (acc.stdin_left.filter (fun _ => true)).map (fun p => (p, acc.is_prefd))) :=
  rm_cmd_set_paths_amended (fun _ => true) [] (("/cwd").data) [['a'], ("//").data, ['b']]
    (by decide) (by decide)

/-! ## Claim C8 -/

theorem isAlphaCh_ne_signs_seps {c : Char} (h : isAlphaCh c = true) :
    c ≠ '+' ∧ c ≠ '-' ∧ c ≠ ',' ∧ c ≠ ':' ∧ c ≠ ';' := by
  refine ⟨?_, ?_, ?_, ?_, ?_⟩ <;> (intro hc; subst hc; exact absurd h (by decide))

theorem dropWhile_all_true_nil {p : Char → Bool} {l : List Char}
    (h : ∀ c ∈ l, p c = true) : l.dropWhile p = [] := by
  have := @dropWhile_append_of_all p l [] h
  simpa using this

theorem sep_not_mem_word {sep : Char} {w : List Char}
    (hsep : sep = ',' ∨ sep = ':' ∨ sep = ';')
    (halpha : ∀ c ∈ w, isAlphaCh c = true) : sep ∉ w := by
  intro hm
  have h := isAlphaCh_ne_signs_seps (halpha sep hm)
  rcases hsep with rfl | rfl | rfl
  · exact h.2.2.1 rfl
  · exact h.2.2.2.1 rfl
  · exact h.2.2.2.2 rfl

theorem sep_not_mem_sign {sep : Char} {sign : List Char}
    (hsep : sep = ',' ∨ sep = ':' ∨ sep = ';')
    (hsign : sign = [] ∨ sign = ['+'] ∨ sign = ['-']) : sep ∉ sign := by
  rcases hsign with rfl | rfl | rfl
  · simp
  · rcases hsep with rfl | rfl | rfl <;> decide
  · rcases hsep with rfl | rfl | rfl <;> decide

theorem find_sep_after_sign {sign l : List Char}
    (hsign : sign = [] ∨ sign = ['+'] ∨ sign = ['-'])
    (hl : ∀ c, l.head? = some c → isAlphaCh c = true) (hlne : l ≠ []) :
    rm_cmd_find_lint_types_sep (sign ++ l)
      = (match l.dropWhile isAlphaCh with
         | [] => Char.ofNat 0
         | c :: _ => c) := by
  rcases hsign with rfl | rfl | rfl
  · cases l with
    | nil => exact absurd rfl hlne
    | cons c r =>
      have hc := hl c rfl
      have hne := isAlphaCh_ne_signs_seps hc
      simp only [List.nil_append, rm_cmd_find_lint_types_sep]
      rw [if_neg (by simp [hne.1, hne.2.1])]
  · simp [rm_cmd_find_lint_types_sep]
  · simp [rm_cmd_find_lint_types_sep]

/-- Claim C8: the element separator of a lint-type selector string is the
first character that is not alphabetic (one leading '+' or '-' sign is
skipped), defaulting to ',' for a string that is only a signed
alphabetic word; consequently comma-, colon- and semicolon-separated
lists are split into the same elements. -/
theorem rm_cmd_lint_types_sep_inference (sign w : List Char) (rest : List (List Char)) (sep : Char)
    (hsep : sep = ',' ∨ sep = ':' ∨ sep = ';')
    (hsign : sign = [] ∨ sign = ['+'] ∨ sign = ['-'])
    (hwords : ∀ u ∈ (w :: rest), u ≠ [] ∧ ∀ c ∈ u, isAlphaCh c = true) :
    rm_cmd_lint_split (sign ++ joinWith sep (w :: rest)) = (sign ++ w) :: rest := by
  have hw := hwords w (by simp)
  have hwne : w ≠ [] := hw.1
  have hwalpha := hw.2
  cases rest with
  | nil =>
    have hhead : ∀ c, w.head? = some c → isAlphaCh c = true := by
      intro c hc
      cases w with
      | nil => simp at hc
      | cons d r => simp at hc; subst hc; exact hwalpha _ (by simp)
    have hfs := @find_sep_after_sign sign w hsign hhead hwne
    rw [dropWhile_all_true_nil hwalpha] at hfs
    have hnm : ',' ∉ sign ++ w := by
      intro hm
      rcases List.mem_append.mp hm with hm | hm
      · exact @sep_not_mem_sign ',' sign (by simp) hsign hm
      · exact @sep_not_mem_word ',' w (by simp) hwalpha hm
    have hne2 : sign ++ w ≠ [] := by
      intro hcontra
      rcases List.append_eq_nil.mp hcontra with ⟨_, h2⟩
      exact hwne h2
    simp only [rm_cmd_lint_split, joinWith, hfs, if_pos rfl, gStrsplitC, if_neg hne2]
    exact splitOnChar_of_not_mem hnm
  | cons w2 rest2 =>
    have hjoin : joinWith sep (w :: w2 :: rest2) = w ++ sep :: joinWith sep (w2 :: rest2) := rfl
    have halsep : isAlphaCh sep = false := by
      rcases hsep with rfl | rfl | rfl <;> decide
    have hdw : (w ++ sep :: joinWith sep (w2 :: rest2)).dropWhile isAlphaCh
        = sep :: joinWith sep (w2 :: rest2) := by
      rw [dropWhile_append_of_all hwalpha]
      simp [List.dropWhile_cons, halsep]
    have hhead : ∀ c, (w ++ sep :: joinWith sep (w2 :: rest2)).head? = some c →
        isAlphaCh c = true := by
      intro c hc
      cases w with
      | nil => exact absurd rfl hwne
      | cons d r => simp at hc; subst hc; exact hwalpha _ (by simp)
    have hfs := @find_sep_after_sign sign (w ++ sep :: joinWith sep (w2 :: rest2)) hsign hhead
      (by simp)
    rw [hdw] at hfs
    have hsep0 : ¬(sep = Char.ofNat 0) := by
      rcases hsep with rfl | rfl | rfl <;> decide
    have hnm : sep ∉ sign ++ w := by
      intro hm
      rcases List.mem_append.mp hm with hm | hm
      · exact sep_not_mem_sign hsep hsign hm
      · exact sep_not_mem_word hsep hwalpha hm
    have hwords2 : ∀ u ∈ (w2 :: rest2), sep ∉ u := by
      intro u hu
      exact sep_not_mem_word hsep (hwords u (by simp [hu])).2
    have hne2 : sign ++ (w ++ sep :: joinWith sep (w2 :: rest2)) ≠ [] := by
      intro hcontra
      rcases List.append_eq_nil.mp hcontra with ⟨_, h2⟩
      simp at h2
    simp only [rm_cmd_lint_split, hjoin, hfs, if_neg hsep0, gStrsplitC, if_neg hne2]
    rw [show sign ++ (w ++ sep :: joinWith sep (w2 :: rest2))
        = (sign ++ w) ++ sep :: joinWith sep (w2 :: rest2) by simp,
      splitOnChar_append_sep hnm, splitOnChar_joinWith (by simp) hwords2]

/-- Witness for claim C8: "+du;ed" splits at the inferred ';'. -/
theorem rm_cmd_lint_types_sep_inference_witness :
    rm_cmd_lint_split (['+'] ++ joinWith ';' [['d', 'u'], ['e', 'd']])
      = (['+'] ++ ['d', 'u']) :: [['e', 'd']] :=
  rm_cmd_lint_types_sep_inference ['+'] ['d', 'u'] [['e', 'd']] ';'
    (by simp) (by simp) (by decide)
